import Mathlib

/-!
Verification of the alien-invasion simulation (`game2.py`).

The Python program is shallow-embedded: aliens are records indexed by a
natural-number id, the board grid is a list of rows of optional ids
(mirroring the Python list-of-lists, including Python's negative-index
wraparound), and every mutating method becomes a state-passing function.
Randomness is factored out: the random draws (`distx`, `disty`, ...) become
explicit parameters.
-/

namespace Game2

/-- Python list indexing: valid nonnegative index, or negative index wrapped
by the length; `none` means Python would raise `IndexError`. -/
def pyIdx (n : Nat) (i : Int) : Option Nat :=
  if 0 ≤ i then (if i < (n : Int) then some i.toNat else none)
  else (if 0 ≤ i + (n : Int) then some (i + (n : Int)).toNat else none)

/-- Python `l[i]` read (with negative wraparound; `none` = `IndexError`). -/
def pyGet {α : Type} (l : List α) (i : Int) : Option α :=
  (pyIdx l.length i).bind fun k => l[k]?

/-- Python `l[i] = a` write (no-op where Python would raise). -/
def pySet {α : Type} (l : List α) (i : Int) (a : α) : List α :=
  match pyIdx l.length i with
  | some k => l.set k a
  | none => l

/-- Python `g[c0][c1] = v` write on a list of lists. -/
def pySet2 {α : Type} (g : List (List α)) (c : Int × Int) (v : α) : List (List α) :=
  match pyIdx g.length c.1 with
  | some k => g.set k (pySet (g[k]?.getD []) c.2 v)
  | none => g

/-- State of one `Alien` object (`game2.py` lines 28-38): `coords`, `x`, `y`,
`strength`, `squished`, and the spawned-children list, whose slots the
garbage collector can null out. -/
structure AlienSt where
  coords : Int × Int
  x : Int
  y : Int
  strength : Int
  squished : Bool
  children : List (Option Nat)
deriving Repr, DecidableEq

/-- State of the `Board` (`game2.py` lines 115-120): the grid rows
(`board[i][j]`, `i` over `height` rows, `j` over `width` slots) and dims. -/
structure BoardSt where
  grid : List (List (Option Nat))
  height : Nat
  width : Nat
deriving Repr, DecidableEq

/-- State of the `Player` (`game2.py` lines 210-216). -/
structure PlayerSt where
  score : Int
  strength : Int
  turn : Nat
  consecutive_hits : Nat
deriving Repr, DecidableEq

/-- Whole mutable state: board, alien store (id = list index), player. -/
structure GameSt where
  board : BoardSt
  aliens : List AlienSt
  player : PlayerSt
deriving Repr, DecidableEq

/-- `Board.getAlien` (lines 168-170): `self.board[coords[0]][coords[1]]`.
Outer `none` = `IndexError`; inner value is the cell content. -/
def getAlien (b : BoardSt) (c : Int × Int) : Option (Option Nat) :=
  (pyGet b.grid c.1).bind fun row => pyGet row c.2

/-- The cell content that `getAlien` yields when it does not raise. -/
def getAlienD (b : BoardSt) (c : Int × Int) : Option Nat := (getAlien b c).join

/-- `Board.isEmpty(coords)` for a point query (lines 172-177). -/
def isEmpty (b : BoardSt) (c : Int × Int) : Bool := (getAlienD b c).isNone

/-- `Board.clearCell` (lines 156-158). -/
def clearCell (b : BoardSt) (c : Int × Int) : BoardSt :=
  { b with grid := pySet2 b.grid c none }

/-- The grid write in `Board.moveAlien` / `Board.addAlien`. -/
def setCell (b : BoardSt) (c : Int × Int) (v : Option Nat) : BoardSt :=
  { b with grid := pySet2 b.grid c v }

/-- `Alien.inRange` (lines 111-113): `0 <= x < width and 0 <= y < height`.
`Board.squish` line 189 inlines the identical bounds expression. -/
def inRange (b : BoardSt) (c : Int × Int) : Bool :=
  decide (0 ≤ c.1) && decide (c.1 < (b.width : Int)) &&
    decide (0 ≤ c.2) && decide (c.2 < (b.height : Int))

/-- Lookup of the alien record behind an id. -/
def alien? (g : GameSt) (id : Nat) : Option AlienSt := g.aliens[id]?

/-- Replace the record of alien `id`. -/
def setAlien (g : GameSt) (id : Nat) (a : AlienSt) : GameSt :=
  { g with aliens := g.aliens.set id a }

/-- `Alien.doDeath` (lines 43-46): set `squished`, then clear the board cell
at the alien's *stored* `coords`. -/
def doDeath (g : GameSt) (id : Nat) : GameSt :=
  match alien? g id with
  | none => g
  | some a =>
    let g1 := setAlien g id { a with squished := true }
    { g1 with board := clearCell g1.board a.coords }

/-- `Alien.doPop` (lines 48-52): subtract the full `strength` argument, then
die if the result is below 1. -/
def doPop (g : GameSt) (id : Nat) (s : Int) : GameSt :=
  match alien? g id with
  | none => g
  | some a =>
    let g1 := setAlien g id { a with strength := a.strength - s }
    if a.strength - s < 1 then doDeath g1 id else g1

/-- `Board.moveAlien` (lines 179-185): only when the source is occupied and
the destination empty; updates the moved alien's `x`,`y` (not `coords`). -/
def moveAlien (g : GameSt) (oldC newC : Int × Int) : GameSt :=
  if !isEmpty g.board oldC && isEmpty g.board newC then
    match getAlienD g.board oldC with
    | some id =>
      let b1 := setCell (clearCell g.board oldC) newC (some id)
      let g1 := { g with board := b1 }
      match alien? g1 id with
      | some a => setAlien g1 id { a with x := newC.1, y := newC.2 }
      | none => g1
    | none => g
  else g

/-- `Alien.doTravel` (lines 66-74) with the two random draws made explicit:
if the offset target is in range, call `moveAlien` and then assign
`self.coords := (newx, newy)` unconditionally. -/
def doTravel (g : GameSt) (id : Nat) (distx disty : Int) : GameSt :=
  match alien? g id with
  | none => g
  | some a =>
    let newx := a.x + distx
    let newy := a.y + disty
    if inRange g.board (newx, newy) then
      let g1 := moveAlien g a.coords (newx, newy)
      match alien? g1 id with
      | some a1 => setAlien g1 id { a1 with coords := (newx, newy) }
      | none => g1
    else g

/-- Module constant `WIDTH = 8` (line 18). -/
def WIDTH : Int := 8

/-- Module constant `HEIGHT = 8` (line 17). -/
def HEIGHT : Int := 8

/-- Module constant `STRENGTH = 9` (line 19). -/
def STRENGTH : Int := 9

/-- The `range(-1, 2)` of `Player.trigger_bomb` (line 239). -/
def bomb_range : List Int := [-1, 0, 1]

/-- The `affected_cells` comprehension of `Player.trigger_bomb`
(lines 240-241), clipped against the module constants `WIDTH`/`HEIGHT`. -/
def affected_cells (e : Int × Int) : List (Int × Int) :=
  bomb_range.flatMap fun dx =>
    (bomb_range.filter fun dy =>
      decide (0 ≤ e.1 + dx) && decide (e.1 + dx < WIDTH) &&
        decide (0 ≤ e.2 + dy) && decide (e.2 + dy < HEIGHT)).map
      fun dy => (e.1 + dx, e.2 + dy)

/-- Shared loop body of `Player.trigger_bomb` (lines 244-247) and
`nuke_board` (lines 299-303): `alien = getAlien(cell); if alien:
alien.doDeath()`. -/
def killStep (g : GameSt) (c : Int × Int) : GameSt :=
  match getAlienD g.board c with
  | some id => doDeath g id
  | none => g

/-- The cell loops of `Player.trigger_bomb` and `nuke_board`. -/
def killCells (g : GameSt) (cells : List (Int × Int)) : GameSt :=
  cells.foldl killStep g

/-- `Player.trigger_bomb` (lines 235-247). -/
def trigger_bomb (g : GameSt) (e : Int × Int) : GameSt :=
  killCells g (affected_cells e)

/-- `Board.squish` (lines 187-208): bounds check, empty check, score capped
at the target's strength, full-strength pop, consecutive-hit bookkeeping and
bomb trigger at 5. -/
def squish (g : GameSt) (c : Int × Int) (strength : Int) : GameSt × Int :=
  if !inRange g.board c then (g, -1)
  else if isEmpty g.board c then (g, -1)
  else
    match getAlienD g.board c with
    | none => (g, -1)
    | some id =>
      match alien? g id with
      | none => (g, -1)
      | some a =>
        let score : Int := if a.strength > strength then strength else a.strength
        let g1 := doPop g id strength
        if score > 0 then
          let g2 := { g1 with player := { g1.player with consecutive_hits := g1.player.consecutive_hits + 1 } }
          if g2.player.consecutive_hits ≥ 5 then
            let g3 := trigger_bomb g2 c
            ({ g3 with player := { g3.player with consecutive_hits := 0 } }, score)
          else (g2, score)
        else ({ g1 with player := { g1.player with consecutive_hits := 0 } }, score)

/-- The cell enumeration of `nuke_board` (lines 299-300): `i` over
`range(width)`, `j` over `range(height)`. -/
def allCells (w h : Nat) : List (Int × Int) :=
  (List.range w).flatMap fun i => (List.range h).map fun j => (Int.ofNat i, Int.ofNat j)

/-- `nuke_board` (lines 294-303). -/
def nuke_board (g : GameSt) : GameSt :=
  killCells g (allCells g.board.width g.board.height)

/-- The `alive_aliens` comprehension of the driver (line 324): all grid
occupants that are not squished. -/
def alive_ids (g : GameSt) : List Nat :=
  (g.board.grid.flatMap fun row => row.filterMap id).filter fun id =>
    match alien? g id with
    | some a => !a.squished
    | none => false

/-- `total_alien_strength` (line 325). -/
def total_alien_strength (g : GameSt) : Int :=
  ((alive_ids g).map fun id =>
    match alien? g id with
    | some a => a.strength
    | none => 0).sum

/-- The nuke win-condition check of the driver (lines 322-332): evaluated
only when `player.turn > 5`; nukes and wins when the live strength sum is
strictly below the player's strength. -/
def nuke_check (g : GameSt) : GameSt × Bool :=
  if g.player.turn > 5 then
    if total_alien_strength g < g.player.strength then (nuke_board g, true)
    else (g, false)
  else (g, false)

/-- One stack entry of `garbage_collect`'s traversal (line 274): the alien
reference (which can be a `None` child slot), the parent, and the index in
the parent's child list. -/
abbrev GCEntry := Option Nat × Option Nat × Nat

/-- The `while stack` loop of `garbage_collect` (lines 275-285), with an
explicit fuel bound. `none` is either exhausted fuel or the `AttributeError`
Python raises when a nulled child slot is popped. The Python `stack.pop()`
takes the most recently appended entry, so children pushed in index order
are visited in reverse; here the list head is the stack top. -/
def gc_visit : Nat → GameSt → List GCEntry → Option GameSt
  | 0, _, _ => none
  | _ + 1, g, [] => some g
  | fuel + 1, g, (cur, parent, idx) :: rest =>
    match cur with
    | none => none
    | some id =>
      match alien? g id with
      | none => none
      | some a =>
        if a.squished then
          match parent with
          | none => gc_visit fuel g rest
          | some p =>
            match alien? g p with
            | none => none
            | some pa =>
              gc_visit fuel (setAlien g p { pa with children := pa.children.set idx none }) rest
        else
          gc_visit fuel g ((a.children.enum.map fun pr => (pr.2, some id, pr.1)).reverse ++ rest)

/-- The per-root body of `garbage_collect` (lines 270-289): skip squished
roots, traverse, then compact only the root's own child list. -/
def gc_root (g : GameSt) (r : Nat) (fuel : Nat) : Option GameSt :=
  match alien? g r with
  | none => none
  | some root =>
    if root.squished then some g
    else
      (gc_visit fuel g [(some r, none, 0)]).map fun g1 =>
        match alien? g1 r with
        | some r1 =>
          if !r1.squished then setAlien g1 r { r1 with children := r1.children.filter Option.isSome }
          else g1
        | none => g1

/-- The `for root_alien in aliens` loop of `garbage_collect`. -/
def gc_roots (fuel : Nat) : List Nat → GameSt → Option GameSt
  | [], g => some g
  | r :: rs, g => (gc_root g r fuel).bind (gc_roots fuel rs)

/-- `garbage_collect` (lines 266-292): run the per-root passes, then return
the filtered registry `[a for a in aliens if not a.squished and a.children
or not a.squished]`. -/
def garbage_collect (g : GameSt) (roots : List Nat) (fuel : Nat) :
    Option (GameSt × List Nat) :=
  (gc_roots fuel roots g).map fun g1 =>
    (g1, roots.filter fun r =>
      match alien? g1 r with
      | some a => (!a.squished && !a.children.isEmpty) || !a.squished
      | none => false)

/-! ## Well-formedness of states

The Python program keeps a single grid of object references; the embedding
indexes aliens by id, so theorems about states that the driver can actually
build carry explicit consistency hypotheses: the grid has the `8 × 8` shape
the driver allocates, every occupant's stored `coords` names its own cell,
and every live alien is stored in the cell its `coords` name. -/

/-- A coordinate inside the driver's `8 × 8` grid. -/
def Canon8 (c : Int × Int) : Prop := 0 ≤ c.1 ∧ c.1 < 8 ∧ 0 ≤ c.2 ∧ c.2 < 8

instance (c : Int × Int) : Decidable (Canon8 c) := by
  unfold Canon8; infer_instance

/-- The grid shape the driver allocates: `Board(8, 8)`. -/
def Shape8 (b : BoardSt) : Prop :=
  b.grid.length = 8 ∧ (∀ row ∈ b.grid, row.length = 8) ∧ b.height = 8 ∧ b.width = 8

instance (b : BoardSt) : Decidable (Shape8 b) := by
  unfold Shape8; infer_instance

/-- The occupant of cell `(i, j)`, if any, is a valid id whose record's
`coords` name exactly that cell. -/
def occOK (g : GameSt) (i j : Nat) : Bool :=
  match getAlienD g.board ((i : Int), (j : Int)) with
  | none => true
  | some id =>
    match alien? g id with
    | none => false
    | some a => decide (a.coords = ((i : Int), (j : Int)))

/-- Every grid occupant is synced with its record. -/
def OccS (g : GameSt) : Prop := ∀ i < 8, ∀ j < 8, occOK g i j = true

instance (g : GameSt) : Decidable (OccS g) := by
  unfold OccS; infer_instance

/-- Alien `id`, when live, is stored in the (canonical) cell its `coords`
name. -/
def liveOK (g : GameSt) (id : Nat) : Bool :=
  match alien? g id with
  | none => true
  | some a =>
    a.squished ||
      (decide (Canon8 a.coords) && decide (getAlienD g.board a.coords = some id))

/-- Every live alien occupies the cell its `coords` name. -/
def LiveS (g : GameSt) : Prop := ∀ id < g.aliens.length, liveOK g id = true

instance (g : GameSt) : Decidable (LiveS g) := by
  unfold LiveS; infer_instance

/-! ## Indexing lemmas -/

theorem pyIdx_canon {n : Nat} {i : Int} (h0 : 0 ≤ i) (hn : i < (n : Int)) :
    pyIdx n i = some i.toNat := by
  simp [pyIdx, h0, hn]

theorem pyIdx_lt {n k : Nat} {i : Int} (h : pyIdx n i = some k) : k < n := by
  unfold pyIdx at h
  by_cases h0 : 0 ≤ i
  · by_cases h1 : i < (n : Int)
    · simp [h0, h1] at h
      omega
    · simp [h0, h1] at h
  · by_cases h2 : 0 ≤ i + (n : Int)
    · simp [h0, h2] at h
      omega
    · simp [h0, h2] at h

theorem pyGet_canon {α : Type} {l : List α} {i : Int} (h0 : 0 ≤ i)
    (hn : i < (l.length : Int)) : pyGet l i = l[i.toNat]? := by
  simp [pyGet, pyIdx_canon h0 hn]

theorem pySet_canon {α : Type} {l : List α} {i : Int} (a : α) (h0 : 0 ≤ i)
    (hn : i < (l.length : Int)) : pySet l i a = l.set i.toNat a := by
  simp [pySet, pyIdx_canon h0 hn]

theorem pySet_length {α : Type} (l : List α) (i : Int) (a : α) :
    (pySet l i a).length = l.length := by
  unfold pySet
  split <;> simp

theorem pySet2_length {α : Type} (g : List (List α)) (c : Int × Int) (v : α) :
    (pySet2 g c v).length = g.length := by
  unfold pySet2
  split <;> simp

/-! ## Cell lemmas under the driver's board shape -/

theorem getAlien_canon {b : BoardSt} {c : Int × Int} (hb : Shape8 b) (hc : Canon8 c) :
    ∃ row, b.grid[c.1.toNat]? = some row ∧ row.length = 8 ∧
      getAlien b c = row[c.2.toNat]? ∧ getAlienD b c = (row[c.2.toNat]?).join := by
  obtain ⟨hlen, hrows, -, -⟩ := hb
  obtain ⟨h1, h2, h3, h4⟩ := hc
  have hi : c.1.toNat < b.grid.length := by omega
  have hrq : b.grid[c.1.toNat]? = some b.grid[c.1.toNat] := List.getElem?_eq_getElem hi
  have hrl : (b.grid[c.1.toNat]).length = 8 :=
    hrows _ (List.getElem_mem hi)
  have hga : getAlien b c = (b.grid[c.1.toNat])[c.2.toNat]? := by
    unfold getAlien
    rw [pyGet_canon h1 (by omega), hrq]
    simp only [Option.some_bind]
    rw [pyGet_canon h3 (by omega : c.2 < ((b.grid[c.1.toNat]).length : Int))]
  exact ⟨_, hrq, hrl, hga, by rw [getAlienD, hga]⟩

theorem clearCell_eq_setCell (b : BoardSt) (c : Int × Int) :
    clearCell b c = setCell b c none := rfl

theorem setCell_canon {b : BoardSt} {c : Int × Int} (hb : Shape8 b) (hc : Canon8 c)
    (v : Option Nat) :
    (setCell b c v).grid =
      b.grid.set c.1.toNat ((b.grid[c.1.toNat]?.getD []).set c.2.toNat v) := by
  obtain ⟨hlen, hrows, -, -⟩ := hb
  obtain ⟨h1, h2, h3, h4⟩ := hc
  have hi : c.1.toNat < b.grid.length := by omega
  have hrq : b.grid[c.1.toNat]? = some b.grid[c.1.toNat] := List.getElem?_eq_getElem hi
  have hrl : (b.grid[c.1.toNat]).length = 8 :=
    hrows _ (List.getElem_mem hi)
  show pySet2 b.grid c v = _
  unfold pySet2
  rw [pyIdx_canon h1 (by omega)]
  simp only [hrq, Option.getD_some]
  rw [pySet_canon v h3 (by omega)]

theorem shape8_setCell {b : BoardSt} {c : Int × Int} (hb : Shape8 b) (hc : Canon8 c)
    (v : Option Nat) : Shape8 (setCell b c v) := by
  obtain ⟨hlen, hrows, hh, hw⟩ := hb
  refine ⟨?_, ?_, hh, hw⟩
  · rw [setCell_canon ⟨hlen, hrows, hh, hw⟩ hc]
    simpa using hlen
  · intro row hrow
    rw [setCell_canon ⟨hlen, hrows, hh, hw⟩ hc] at hrow
    rcases List.mem_or_eq_of_mem_set hrow with h | h
    · exact hrows row h
    · subst h
      have hi : c.1.toNat < b.grid.length := by
        obtain ⟨h1, h2, -, -⟩ := hc
        omega
      have hrq : b.grid[c.1.toNat]? = some b.grid[c.1.toNat] := List.getElem?_eq_getElem hi
      rw [hrq]
      simpa using hrows _ (List.getElem_mem hi)

theorem getAlienD_setCell_self {b : BoardSt} {c : Int × Int} (hb : Shape8 b)
    (hc : Canon8 c) (v : Option Nat) : getAlienD (setCell b c v) c = v := by
  obtain ⟨row, hrq, hrl, -, hd⟩ := getAlien_canon (shape8_setCell hb hc v) hc
  rw [hd]
  have hi : c.1.toNat < b.grid.length := by
    obtain ⟨h1, h2, -, -⟩ := hc
    obtain ⟨hlen, -, -, -⟩ := hb
    omega
  have hrq0 : b.grid[c.1.toNat]? = some b.grid[c.1.toNat] := List.getElem?_eq_getElem hi
  rw [setCell_canon hb hc] at hrq
  rw [List.getElem?_set_eq_of_lt _ (by simpa using hi)] at hrq
  have hrow : row = (b.grid[c.1.toNat]?.getD []).set c.2.toNat v := by
    exact (Option.some_inj.mp hrq).symm
  subst hrow
  have hj : c.2.toNat < (b.grid[c.1.toNat]?.getD []).length := by
    rw [hrq0]
    obtain ⟨-, -, h3, h4⟩ := hc
    have := (hb.2.1) _ (List.getElem_mem hi)
    simpa [this] using (by omega : c.2.toNat < 8)
  rw [List.getElem?_set_eq_of_lt _ hj]
  rfl

theorem getAlienD_setCell_ne {b : BoardSt} {c c' : Int × Int} (hb : Shape8 b)
    (hc : Canon8 c) (hc' : Canon8 c') (hne : c' ≠ c) (v : Option Nat) :
    getAlienD (setCell b c v) c' = getAlienD b c' := by
  obtain ⟨row, hrq, hrl, -, hd⟩ := getAlien_canon (shape8_setCell hb hc v) hc'
  obtain ⟨row0, hrq0, hrl0, -, hd0⟩ := getAlien_canon hb hc'
  rw [hd, hd0]
  rw [setCell_canon hb hc] at hrq
  by_cases hrow : c'.1.toNat = c.1.toNat
  · -- same row, so the columns must differ
    have hcol : c'.2.toNat ≠ c.2.toNat := by
      obtain ⟨a1, a2, a3, a4⟩ := hc
      obtain ⟨b1, b2, b3, b4⟩ := hc'
      intro hj
      apply hne
      have : c'.1 = c.1 := by omega
      have : c'.2 = c.2 := by omega
      cases c; cases c'
      simp_all
    rw [hrow, List.getElem?_set_eq_of_lt] at hrq
    · have : row = (b.grid[c.1.toNat]?.getD []).set c.2.toNat v :=
        (Option.some_inj.mp hrq).symm
      subst this
      rw [List.getElem?_set_ne (by omega)]
      have : b.grid[c.1.toNat]?.getD [] = row0 := by
        rw [hrow] at hrq0
        rw [hrq0]
        rfl
      rw [this]
    · obtain ⟨a1, a2, -, -⟩ := hc
      obtain ⟨hlen, -, -, -⟩ := hb
      omega
  · rw [List.getElem?_set_ne (by omega)] at hrq
    rw [hrq] at hrq0
    rw [Option.some_inj.mp hrq0]

/-! ## Record-level lemmas -/

theorem alien?_lt {g : GameSt} {id : Nat} {a : AlienSt} (h : alien? g id = some a) :
    id < g.aliens.length :=
  (List.getElem?_eq_some.mp h).1

theorem alien?_setAlien_self {g : GameSt} {id : Nat} (a : AlienSt)
    (h : id < g.aliens.length) : alien? (setAlien g id a) id = some a :=
  List.getElem?_set_eq_of_lt a h

theorem alien?_setAlien_ne {g : GameSt} {id id' : Nat} (a : AlienSt)
    (h : id' ≠ id) : alien? (setAlien g id a) id' = alien? g id' :=
  List.getElem?_set_ne (fun hh => h hh.symm)

theorem setAlien_board (g : GameSt) (id : Nat) (a : AlienSt) :
    (setAlien g id a).board = g.board := rfl

theorem setAlien_player (g : GameSt) (id : Nat) (a : AlienSt) :
    (setAlien g id a).player = g.player := rfl

theorem setAlien_length (g : GameSt) (id : Nat) (a : AlienSt) :
    (setAlien g id a).aliens.length = g.aliens.length := by
  simp [setAlien]

theorem doDeath_eq {g : GameSt} {id : Nat} {a : AlienSt} (h : alien? g id = some a) :
    doDeath g id = { board := clearCell g.board a.coords,
                     aliens := g.aliens.set id { a with squished := true },
                     player := g.player } := by
  unfold doDeath
  rw [h]
  rfl

theorem doDeath_none {g : GameSt} {id : Nat} (h : alien? g id = none) :
    doDeath g id = g := by
  unfold doDeath
  rw [h]

theorem doPop_eq_live {g : GameSt} {id : Nat} {a : AlienSt} {s : Int}
    (h : alien? g id = some a) (hs : ¬a.strength - s < 1) :
    doPop g id s = setAlien g id { a with strength := a.strength - s } := by
  unfold doPop
  rw [h]
  simp [hs]

theorem doPop_eq_dead {g : GameSt} {id : Nat} {a : AlienSt} {s : Int}
    (h : alien? g id = some a) (hs : a.strength - s < 1) :
    doPop g id s =
      { board := clearCell g.board a.coords,
        aliens := g.aliens.set id { a with strength := a.strength - s, squished := true },
        player := g.player } := by
  unfold doPop
  rw [h]
  simp only [hs, if_pos]
  rw [doDeath_eq (alien?_setAlien_self _ (alien?_lt h))]
  simp only [setAlien]
  rw [List.set_set]

theorem doPop_player (g : GameSt) (id : Nat) (s : Int) :
    (doPop g id s).player = g.player := by
  unfold doPop
  cases h : alien? g id with
  | none => rfl
  | some a =>
    by_cases hs : a.strength - s < 1
    · simp only [hs, if_pos]
      rw [doDeath_eq (alien?_setAlien_self _ (alien?_lt h))]
      rfl
    · simp [hs, setAlien]

/-! ## Sync lemmas -/

theorem canon8_pair {i j : Nat} (hi : i < 8) (hj : j < 8) :
    Canon8 ((i : Int), (j : Int)) := by
  refine ⟨by omega, by omega, by omega, by omega⟩

theorem canon8_toNat_pair {c : Int × Int} (hc : Canon8 c) :
    ((c.1.toNat : Int), (c.2.toNat : Int)) = c := by
  obtain ⟨h1, h2, h3, h4⟩ := hc
  cases c
  simp only [Prod.mk.injEq]
  constructor <;> omega

theorem OccS_spec {g : GameSt} {c : Int × Int} {id : Nat} (hg : OccS g)
    (hc : Canon8 c) (h : getAlienD g.board c = some id) :
    ∃ a, alien? g id = some a ∧ a.coords = c := by
  obtain ⟨h1, h2, h3, h4⟩ := hc
  have hcc := canon8_toNat_pair ⟨h1, h2, h3, h4⟩
  have hok := hg c.1.toNat (by omega) c.2.toNat (by omega)
  unfold occOK at hok
  simp only [hcc, h] at hok
  cases ha : alien? g id with
  | none =>
    simp [ha] at hok
  | some a =>
    simp only [ha, decide_eq_true_eq] at hok
    exact ⟨a, rfl, hok⟩

/-! ## What a kill sweep preserves -/

/-- A `doDeath` sweep changes each record only by possibly flipping
`squished` from `false` to `true`, and never touches the player. -/
def KPres (g g' : GameSt) : Prop :=
  g'.player = g.player ∧ g'.aliens.length = g.aliens.length ∧
    ∀ id a, alien? g id = some a →
      ∃ s, alien? g' id = some { a with squished := s } ∧ (a.squished = true → s = true)

theorem KPres_refl (g : GameSt) : KPres g g :=
  ⟨rfl, rfl, fun _ a h => ⟨a.squished, h, fun hh => hh⟩⟩

theorem KPres_trans {g g' g'' : GameSt} (h1 : KPres g g') (h2 : KPres g' g'') :
    KPres g g'' := by
  obtain ⟨p1, l1, r1⟩ := h1
  obtain ⟨p2, l2, r2⟩ := h2
  refine ⟨p2.trans p1, l2.trans l1, fun id a h => ?_⟩
  obtain ⟨s1, hs1, hm1⟩ := r1 id a h
  obtain ⟨s2, hs2, hm2⟩ := r2 id _ hs1
  exact ⟨s2, hs2, fun hh => hm2 (hm1 hh)⟩

theorem KPres_doDeath (g : GameSt) (j : Nat) : KPres g (doDeath g j) := by
  cases h : alien? g j with
  | none => rw [doDeath_none h]; exact KPres_refl g
  | some aj =>
    rw [doDeath_eq h]
    refine ⟨rfl, by simp, fun id a ha => ?_⟩
    by_cases hid : id = j
    · subst hid
      have : a = aj := Option.some_inj.mp (ha.symm.trans h)
      subst this
      exact ⟨true, List.getElem?_set_eq_of_lt _ (alien?_lt ha), fun _ => rfl⟩
    · refine ⟨a.squished, ?_, fun hh => hh⟩
      show (g.aliens.set j _)[id]? = some a
      rw [List.getElem?_set_ne (fun hh => hid hh.symm)]
      exact ha

theorem KPres_killStep (g : GameSt) (c : Int × Int) : KPres g (killStep g c) := by
  unfold killStep
  cases h : getAlienD g.board c with
  | none => exact KPres_refl g
  | some j => exact KPres_doDeath g j

theorem KPres_killCells : ∀ (cells : List (Int × Int)) (g : GameSt),
    KPres g (killCells g cells)
  | [], g => KPres_refl g
  | c :: cs, g =>
    KPres_trans (KPres_killStep g c) (KPres_killCells cs (killStep g c))

/-! ## A kill sweep and synced states -/

theorem sync_doDeath {g : GameSt} {id : Nat} {a : AlienSt} (hs : Shape8 g.board)
    (ho : OccS g) (h : alien? g id = some a) (hc : Canon8 a.coords) :
    Shape8 (doDeath g id).board ∧ OccS (doDeath g id) := by
  have hbd : (doDeath g id).board = setCell g.board a.coords none := by
    rw [doDeath_eq h]
    rfl
  have halne : ∀ k, k ≠ id → alien? (doDeath g id) k = alien? g k := by
    intro k hk
    rw [doDeath_eq h]
    show (g.aliens.set id _)[k]? = g.aliens[k]?
    exact List.getElem?_set_ne (fun hh => hk hh.symm)
  have halid : alien? (doDeath g id) id = some { a with squished := true } := by
    rw [doDeath_eq h]
    exact List.getElem?_set_eq_of_lt _ (alien?_lt h)
  constructor
  · rw [hbd]
    exact shape8_setCell hs hc none
  · intro i hi j hj
    unfold occOK
    by_cases hcell : ((i : Int), (j : Int)) = a.coords
    · rw [hbd, hcell, getAlienD_setCell_self hs hc none]
    · rw [hbd, getAlienD_setCell_ne hs hc (canon8_pair hi hj) hcell none]
      cases hk : getAlienD g.board ((i : Int), (j : Int)) with
      | none => rfl
      | some k =>
        obtain ⟨ak, hak, hakc⟩ := OccS_spec ho (canon8_pair hi hj) hk
        by_cases hkid : k = id
        · subst hkid
          have : ak = a := Option.some_inj.mp (hak.symm.trans h)
          subst this
          exact absurd hakc.symm hcell
        · simp [halne k hkid, hak, hakc]

theorem killCells_kills : ∀ (cells : List (Int × Int)) (g : GameSt),
    Shape8 g.board → OccS g → (∀ c ∈ cells, Canon8 c) →
    ∀ id a, alien? g id = some a → getAlienD g.board a.coords = some id →
    a.coords ∈ cells →
    ∃ a', alien? (killCells g cells) id = some a' ∧ a'.squished = true := by
  intro cells
  induction cells with
  | nil =>
    intro g _ _ _ id a _ _ hmem
    exact absurd hmem (List.not_mem_nil _)
  | cons c cs ih =>
    intro g hs ho hcan id a ha hcell hmem
    have hstep : killCells g (c :: cs) = killCells (killStep g c) cs := rfl
    rw [hstep]
    by_cases heq : a.coords = c
    · -- this step kills `id` itself; the rest of the sweep keeps it dead
      have hkill : killStep g c = doDeath g id := by
        unfold killStep
        rw [← heq, hcell]
      rw [hkill]
      have hdead : alien? (doDeath g id) id = some { a with squished := true } := by
        rw [doDeath_eq ha]
        exact List.getElem?_set_eq_of_lt _ (alien?_lt ha)
      obtain ⟨-, -, hrec⟩ := KPres_killCells cs (doDeath g id)
      obtain ⟨s, hss, hmono⟩ := hrec id _ hdead
      exact ⟨_, hss, hmono rfl⟩
    · -- the step clears some other cell; re-establish the hypotheses
      have hmem' : a.coords ∈ cs := by
        cases List.mem_cons.mp hmem with
        | inl hh => exact absurd hh heq
        | inr hh => exact hh
      have hcanc : Canon8 c := hcan c (List.mem_cons_self c cs)
      have hcana : Canon8 a.coords := hcan _ hmem
      cases hocc : getAlienD g.board c with
      | none =>
        have : killStep g c = g := by
          unfold killStep
          rw [hocc]
        rw [this]
        exact ih g hs ho (fun x hx => hcan x (List.mem_cons_of_mem c hx)) id a ha hcell hmem'
      | some j =>
        obtain ⟨aj, haj, hajc⟩ := OccS_spec ho hcanc hocc
        have hjid : j ≠ id := by
          intro hh
          subst hh
          have : aj = a := Option.some_inj.mp (haj.symm.trans ha)
          subst this
          exact heq hajc
        have : killStep g c = doDeath g j := by
          unfold killStep
          rw [hocc]
        rw [this]
        obtain ⟨hs', ho'⟩ := sync_doDeath hs ho haj (hajc ▸ hcanc)
        have ha' : alien? (doDeath g j) id = some a := by
          rw [doDeath_eq haj]
          show (g.aliens.set j _)[id]? = some a
          rw [List.getElem?_set_ne hjid]
          exact ha
        have hcell' : getAlienD (doDeath g j).board a.coords = some id := by
          rw [doDeath_eq haj]
          show getAlienD (clearCell g.board aj.coords) a.coords = some id
          rw [clearCell_eq_setCell, hajc,
            getAlienD_setCell_ne hs hcanc hcana (fun hh => heq hh) none]
          exact hcell
        exact ih (doDeath g j) hs' ho'
          (fun x hx => hcan x (List.mem_cons_of_mem c hx)) id a ha' hcell' hmem'

/-! ## Kill sweeps never fill a cell -/

theorem getAlienD_clearCell_none {b : BoardSt} {c c' : Int × Int}
    (h : getAlienD b c = none) : getAlienD (clearCell b c') c = none := by
  have hgrid : (clearCell b c').grid = pySet2 b.grid c' none := rfl
  unfold getAlienD getAlien pyGet at h ⊢
  rw [hgrid]
  simp only [pySet2_length]
  cases hk : pyIdx b.grid.length c.1 with
  | none => simp [hk]
  | some k =>
    simp only [hk, Option.some_bind] at h ⊢
    have hklt : k < b.grid.length := pyIdx_lt hk
    have hbk : b.grid[k]? = some b.grid[k] := List.getElem?_eq_getElem hklt
    rw [hbk, Option.some_bind] at h
    unfold pySet2
    cases hk2 : pyIdx b.grid.length c'.1 with
    | none =>
      simp only [hk2]
      rw [hbk, Option.some_bind]
      exact h
    | some k2 =>
      simp only [hk2]
      by_cases hkk : k2 = k
      · rw [hkk, List.getElem?_set_eq_of_lt _ hklt, Option.some_bind, hbk,
          Option.getD_some]
        simp only [pySet_length]
        cases ht : pyIdx (b.grid[k]).length c.2 with
        | none => simp [ht]
        | some t =>
          simp only [ht, Option.some_bind] at h ⊢
          have htlt : t < (b.grid[k]).length := pyIdx_lt ht
          rw [List.getElem?_eq_getElem htlt] at h
          unfold pySet
          cases ht2 : pyIdx (b.grid[k]).length c'.2 with
          | none =>
            simp only [ht2]
            rw [List.getElem?_eq_getElem htlt]
            exact h
          | some t2 =>
            simp only [ht2]
            by_cases htt : t2 = t
            · rw [htt, List.getElem?_set_eq_of_lt _ htlt]
              rfl
            · rw [List.getElem?_set_ne htt, List.getElem?_eq_getElem htlt]
              exact h
      · rw [List.getElem?_set_ne hkk, hbk, Option.some_bind]
        exact h

theorem getAlienD_killStep_none {g : GameSt} {c c' : Int × Int}
    (h : getAlienD g.board c = none) : getAlienD (killStep g c').board c = none := by
  unfold killStep
  cases hj : getAlienD g.board c' with
  | none =>
    simp only [hj]
    exact h
  | some j =>
    simp only [hj]
    cases ha : alien? g j with
    | none =>
      rw [doDeath_none ha]
      exact h
    | some aj =>
      rw [doDeath_eq ha]
      show getAlienD (clearCell g.board aj.coords) c = none
      exact getAlienD_clearCell_none h

theorem getAlienD_killCells_none : ∀ (cells : List (Int × Int)) (g : GameSt)
    (c : Int × Int), getAlienD g.board c = none →
    getAlienD (killCells g cells).board c = none
  | [], _, _, h => h
  | c' :: cs, g, c, h =>
    getAlienD_killCells_none cs (killStep g c') c (getAlienD_killStep_none h)

/-! ## Garbage-collection machinery -/

/-- `ys` is `xs` with some slots overwritten by `none`: same length, all
surviving entries in place. This is the only thing the traversal's
`parent.children[idx] = None` writes can do to a child list. -/
inductive NulledOf : List (Option Nat) → List (Option Nat) → Prop
  | nil : NulledOf [] []
  | keep (x : Option Nat) {ys xs : List (Option Nat)} (h : NulledOf ys xs) :
      NulledOf (x :: ys) (x :: xs)
  | drop (x : Option Nat) {ys xs : List (Option Nat)} (h : NulledOf ys xs) :
      NulledOf (none :: ys) (x :: xs)

theorem NulledOf.refl : ∀ l : List (Option Nat), NulledOf l l
  | [] => .nil
  | x :: xs => .keep x (NulledOf.refl xs)

theorem NulledOf.trans {zs ys xs : List (Option Nat)} (h1 : NulledOf zs ys)
    (h2 : NulledOf ys xs) : NulledOf zs xs := by
  induction h1 generalizing xs with
  | nil => exact h2
  | keep x h ih =>
    cases h2 with
    | keep _ h2' => exact .keep _ (ih h2')
    | drop _ h2' => exact .drop _ (ih h2')
  | drop x h ih =>
    cases h2 with
    | keep _ h2' => exact .drop _ (ih h2')
    | drop _ h2' => exact .drop _ (ih h2')

theorem NulledOf.set_none : ∀ (l : List (Option Nat)) (i : Nat),
    NulledOf (l.set i none) l
  | [], _ => .nil
  | x :: xs, 0 => .drop x (NulledOf.refl xs)
  | x :: xs, i + 1 => .keep x (NulledOf.set_none xs i)

theorem NulledOf.filter_sublist {ys xs : List (Option Nat)} (h : NulledOf ys xs) :
    (ys.filter Option.isSome).Sublist xs := by
  induction h with
  | nil => exact List.Sublist.refl _
  | keep x h ih =>
    cases hx : x.isSome with
    | true =>
      rw [List.filter_cons_of_pos hx]
      exact List.Sublist.cons₂ x ih
    | false =>
      rw [List.filter_cons_of_neg (by simp [hx])]
      exact List.Sublist.cons x ih
  | drop x h ih =>
    rw [List.filter_cons_of_neg (by simp)]
    exact List.Sublist.cons x ih

/-- What the traversal phase of the collector preserves of each alien:
everything but possibly nulled child-list slots; board and player untouched. -/
def APres (a' a : AlienSt) : Prop :=
  a'.coords = a.coords ∧ a'.x = a.x ∧ a'.y = a.y ∧ a'.strength = a.strength ∧
    a'.squished = a.squished ∧ NulledOf a'.children a.children

def GPres (g g' : GameSt) : Prop :=
  g'.board = g.board ∧ g'.player = g.player ∧
    g'.aliens.length = g.aliens.length ∧
    ∀ id a, alien? g id = some a → ∃ a', alien? g' id = some a' ∧ APres a' a

theorem APres_refl (a : AlienSt) : APres a a :=
  ⟨rfl, rfl, rfl, rfl, rfl, NulledOf.refl _⟩

theorem APres_trans {a'' a' a : AlienSt} (h1 : APres a' a) (h2 : APres a'' a') :
    APres a'' a :=
  ⟨h2.1.trans h1.1, h2.2.1.trans h1.2.1, h2.2.2.1.trans h1.2.2.1,
    h2.2.2.2.1.trans h1.2.2.2.1, h2.2.2.2.2.1.trans h1.2.2.2.2.1,
    h2.2.2.2.2.2.trans h1.2.2.2.2.2⟩

theorem GPres_refl (g : GameSt) : GPres g g :=
  ⟨rfl, rfl, rfl, fun _ a h => ⟨a, h, APres_refl a⟩⟩

theorem GPres_trans {g g' g'' : GameSt} (h1 : GPres g g') (h2 : GPres g' g'') :
    GPres g g'' := by
  obtain ⟨b1, p1, l1, r1⟩ := h1
  obtain ⟨b2, p2, l2, r2⟩ := h2
  refine ⟨b2.trans b1, p2.trans p1, l2.trans l1, fun id a h => ?_⟩
  obtain ⟨a1, ha1, hp1⟩ := r1 id a h
  obtain ⟨a2, ha2, hp2⟩ := r2 id a1 ha1
  exact ⟨a2, ha2, APres_trans hp1 hp2⟩

theorem GPres_set_children {g : GameSt} {p : Nat} {pa : AlienSt}
    (h : alien? g p = some pa) {ch : List (Option Nat)}
    (hch : NulledOf ch pa.children) :
    GPres g (setAlien g p { pa with children := ch }) := by
  refine ⟨rfl, rfl, by simp [setAlien], fun id a ha => ?_⟩
  by_cases hid : id = p
  · subst hid
    have : a = pa := Option.some_inj.mp (ha.symm.trans h)
    subst this
    refine ⟨{ a with children := ch }, alien?_setAlien_self _ (alien?_lt ha), ?_⟩
    exact ⟨rfl, rfl, rfl, rfl, rfl, hch⟩
  · refine ⟨a, ?_, APres_refl a⟩
    rw [alien?_setAlien_ne _ hid]
    exact ha

theorem gc_visit_pres : ∀ (fuel : Nat) (g : GameSt) (st : List GCEntry)
    (g' : GameSt), gc_visit fuel g st = some g' → GPres g g' := by
  intro fuel
  induction fuel with
  | zero =>
    intro g st g' h
    exact absurd h (by simp [gc_visit])
  | succ n ih =>
    intro g st g' h
    rcases st with - | ⟨⟨cur, parent, idx⟩, rest⟩
    · have hg : g = g' := Option.some_inj.mp h
      rw [← hg]
      exact GPres_refl g
    · rcases cur with - | id
      · exact Option.noConfusion h
      · simp only [gc_visit] at h
        cases ha : alien? g id with
        | none =>
          simp only [ha] at h
          exact absurd h (by simp)
        | some a =>
          simp only [ha] at h
          cases hsq : a.squished with
          | false =>
            simp only [hsq, Bool.false_eq_true, if_false] at h
            exact ih g _ g' h
          | true =>
            simp only [hsq, if_true] at h
            cases parent with
            | none => exact ih g rest g' h
            | some p =>
              cases hp : alien? g p with
              | none =>
                simp only [hp] at h
                exact absurd h (by simp)
              | some pa =>
                simp only [hp] at h
                exact GPres_trans
                  (GPres_set_children hp (NulledOf.set_none pa.children idx))
                  (ih _ rest g' h)

/-- The squished flags and the store size survive the whole collection. -/
def SPres (g g' : GameSt) : Prop :=
  g'.aliens.length = g.aliens.length ∧
    ∀ id a, alien? g id = some a → ∃ a', alien? g' id = some a' ∧ a'.squished = a.squished

theorem SPres_refl (g : GameSt) : SPres g g :=
  ⟨rfl, fun _ a h => ⟨a, h, rfl⟩⟩

theorem SPres_trans {g g' g'' : GameSt} (h1 : SPres g g') (h2 : SPres g' g'') :
    SPres g g'' := by
  obtain ⟨l1, r1⟩ := h1
  obtain ⟨l2, r2⟩ := h2
  refine ⟨l2.trans l1, fun id a h => ?_⟩
  obtain ⟨a1, ha1, hs1⟩ := r1 id a h
  obtain ⟨a2, ha2, hs2⟩ := r2 id a1 ha1
  exact ⟨a2, ha2, hs2.trans hs1⟩

theorem GPres_to_SPres {g g' : GameSt} (h : GPres g g') : SPres g g' :=
  ⟨h.2.2.1, fun id a ha => by
    obtain ⟨a', ha', hp⟩ := h.2.2.2 id a ha
    exact ⟨a', ha', hp.2.2.2.2.1⟩⟩

theorem gcRootSpres {g g' : GameSt} {r fuel : Nat}
    (h : gc_root g r fuel = some g') : SPres g g' := by
  unfold gc_root at h
  cases hr : alien? g r with
  | none =>
    rw [hr] at h
    exact absurd h (by simp)
  | some root =>
    rw [hr] at h
    by_cases hsq : root.squished
    · simp only [hsq, if_true] at h
      rw [← Option.some_inj.mp h]
      exact SPres_refl g
    · simp only [hsq, if_false] at h
      cases hv : gc_visit fuel g [(some r, none, 0)] with
      | none =>
        rw [hv] at h
        exact absurd h (by simp)
      | some g1 =>
        rw [hv] at h
        simp only [Option.map_some'] at h
        have hpres1 : SPres g g1 := GPres_to_SPres (gc_visit_pres fuel g _ g1 hv)
        cases hr1 : alien? g1 r with
        | none =>
          rw [hr1] at h
          rw [← Option.some_inj.mp h]
          exact hpres1
        | some r1 =>
          rw [hr1] at h
          by_cases hsq1 : r1.squished
          · simp only [hsq1, Bool.not_true, if_false] at h
            rw [← Option.some_inj.mp h]
            exact hpres1
          · simp only [hsq1, Bool.not_false, if_true] at h
            rw [← Option.some_inj.mp h]
            refine SPres_trans hpres1 ⟨by simp [setAlien], fun id a ha => ?_⟩
            by_cases hid : id = r
            · subst hid
              have heq : a = r1 := Option.some_inj.mp (ha.symm.trans hr1)
              subst heq
              refine ⟨_, alien?_setAlien_self _ (alien?_lt ha), ?_⟩
              have hfs : a.squished = false := by
                cases hb : a.squished
                · rfl
                · exact absurd hb hsq1
              simp [hfs]
            · refine ⟨a, ?_, rfl⟩
              rw [alien?_setAlien_ne _ hid]
              exact ha

theorem gc_roots_spres : ∀ (roots : List Nat) (fuel : Nat) (g g' : GameSt),
    gc_roots fuel roots g = some g' → SPres g g' := by
  intro roots
  induction roots with
  | nil =>
    intro fuel g g' h
    rw [show gc_roots fuel [] g = some g from rfl] at h
    rw [← Option.some_inj.mp h]
    exact SPres_refl g
  | cons r rs ih =>
    intro fuel g g' h
    rw [show gc_roots fuel (r :: rs) g = (gc_root g r fuel).bind (gc_roots fuel rs)
      from rfl] at h
    cases h1 : gc_root g r fuel with
    | none =>
      rw [h1] at h
      exact absurd h (by simp)
    | some g1 =>
      rw [h1] at h
      exact SPres_trans (gcRootSpres h1) (ih fuel g1 g' h)

theorem SPres_none {g g' : GameSt} (h : SPres g g') {r : Nat}
    (hr : alien? g r = none) : alien? g' r = none := by
  cases hx : alien? g' r with
  | none => rfl
  | some a' =>
    have hlt : r < g.aliens.length := h.1 ▸ alien?_lt hx
    have hsome : alien? g r = some g.aliens[r] := List.getElem?_eq_getElem hlt
    rw [hr] at hsome
    exact absurd hsome (by simp)

/-- The live root's compacted child list after one `gc_root` pass: only
`some` slots survive, in their original relative order. -/
theorem gcRootChildren {g g' : GameSt} {r fuel : Nat} {a : AlienSt}
    (h : gc_root g r fuel = some g') (ha : alien? g r = some a)
    (hsq : a.squished = false) :
    ∃ a', alien? g' r = some a' ∧ a'.squished = false ∧
      (∀ slot ∈ a'.children, slot.isSome = true) ∧ a'.children.Sublist a.children := by
  unfold gc_root at h
  rw [ha] at h
  simp only [hsq, Bool.false_eq_true, if_false] at h
  cases hv : gc_visit fuel g [(some r, none, 0)] with
  | none =>
    rw [hv] at h
    exact absurd h (by simp)
  | some g1 =>
    rw [hv] at h
    simp only [Option.map_some'] at h
    have hpres := gc_visit_pres fuel g _ g1 hv
    obtain ⟨a1, ha1, hp1⟩ := hpres.2.2.2 r a ha
    have hsq1 : a1.squished = false := hp1.2.2.2.2.1.trans hsq
    have h2 := Option.some_inj.mp h
    simp only [ha1, hsq1, Bool.not_false, if_true] at h2
    rw [← h2]
    refine ⟨_, alien?_setAlien_self _ (alien?_lt ha1), rfl, ?_, ?_⟩
    · intro slot hslot
      exact (List.mem_filter.mp hslot).2
    · exact hp1.2.2.2.2.2.filter_sublist

/-! ## Cell-list lemmas for the bomb and the nuke -/

theorem mem_allCells_iff {c : Int × Int} : c ∈ allCells 8 8 ↔ Canon8 c := by
  unfold allCells
  rw [List.mem_flatMap]
  constructor
  · rintro ⟨i, hi, hmem⟩
    obtain ⟨j, hj, hcj⟩ := List.mem_map.mp hmem
    rw [← hcj]
    exact canon8_pair (List.mem_range.mp hi) (List.mem_range.mp hj)
  · intro hc
    have hcc := canon8_toNat_pair hc
    obtain ⟨h1, h2, h3, h4⟩ := hc
    exact ⟨c.1.toNat, List.mem_range.mpr (by omega),
      List.mem_map.mpr ⟨c.2.toNat, List.mem_range.mpr (by omega), hcc⟩⟩

theorem affected_cells_canon (e : Int × Int) : ∀ c ∈ affected_cells e, Canon8 c := by
  intro c hc
  unfold affected_cells at hc
  obtain ⟨dx, hdx, hc⟩ := List.mem_flatMap.mp hc
  obtain ⟨dy, hdy, hcj⟩ := List.mem_map.mp hc
  have hcond := (List.mem_filter.mp hdy).2
  simp only [WIDTH, HEIGHT, Bool.and_eq_true, decide_eq_true_eq] at hcond
  obtain ⟨⟨⟨hA, hB⟩, hC⟩, hD⟩ := hcond
  rw [← hcj]
  exact ⟨hA, hB, hC, hD⟩

/-! ## Sync through a pop -/

theorem OccS_setAlien {g : GameSt} {id : Nat} {a : AlienSt} (a1 : AlienSt)
    (ha : alien? g id = some a) (hco : a1.coords = a.coords) (ho : OccS g) :
    OccS (setAlien g id a1) := by
  intro i hi j hj
  have hok := ho i hi j hj
  unfold occOK at hok ⊢
  rw [setAlien_board]
  cases hk : getAlienD g.board ((i : Int), (j : Int)) with
  | none => simp [hk]
  | some k =>
    simp only [hk] at hok ⊢
    by_cases hkid : k = id
    · subst hkid
      simp only [ha, decide_eq_true_eq] at hok
      simp only [alien?_setAlien_self a1 (alien?_lt ha), decide_eq_true_eq]
      rw [hco]
      exact hok
    · simp only [alien?_setAlien_ne a1 hkid]
      exact hok

theorem sync_doPop {g : GameSt} {id : Nat} {a : AlienSt} {s : Int}
    (hs : Shape8 g.board) (ho : OccS g) (ha : alien? g id = some a)
    (hc : Canon8 a.coords) :
    Shape8 (doPop g id s).board ∧ OccS (doPop g id s) := by
  by_cases hd : a.strength - s < 1
  · have hrw : doPop g id s =
        doDeath (setAlien g id { a with strength := a.strength - s }) id := by
      unfold doPop
      rw [ha]
      simp [hd]
    rw [hrw]
    exact sync_doDeath hs
      (OccS_setAlien _ ha rfl ho)
      (alien?_setAlien_self _ (alien?_lt ha)) hc
  · rw [doPop_eq_live ha hd]
    exact ⟨hs, OccS_setAlien _ ha rfl ho⟩

/-! ## Unfolding an attack on an occupied cell -/

theorem squish_occ {g : GameSt} {c : Int × Int} {s : Int} {id : Nat} {a : AlienSt}
    (hb : inRange g.board c = true) (hocc : getAlienD g.board c = some id)
    (ha : alien? g id = some a) :
    squish g c s =
      (let score : Int := if a.strength > s then s else a.strength
       let g1 := doPop g id s
       if score > 0 then
         let g2 := { g1 with player := { g1.player with consecutive_hits := g1.player.consecutive_hits + 1 } }
         if g2.player.consecutive_hits ≥ 5 then
           let g3 := trigger_bomb g2 c
           ({ g3 with player := { g3.player with consecutive_hits := 0 } }, score)
         else (g2, score)
       else ({ g1 with player := { g1.player with consecutive_hits := 0 } }, score)) := by
  have hemp : isEmpty g.board c = false := by
    unfold isEmpty
    rw [hocc]
    rfl
  unfold squish
  simp only [hb, hemp, Bool.not_true, Bool.false_eq_true, if_false, hocc, ha]

theorem inRange_canon {b : BoardSt} {c : Int × Int} (hs : Shape8 b)
    (hb : inRange b c = true) : Canon8 c := by
  obtain ⟨-, -, hh, hw⟩ := hs
  unfold inRange at hb
  simp only [hh, hw, Bool.and_eq_true, decide_eq_true_eq] at hb
  obtain ⟨⟨⟨h1, h2⟩, h3⟩, h4⟩ := hb
  exact ⟨h1, by exact_mod_cast h2, h3, by exact_mod_cast h4⟩

theorem score_eq_min (t s : Int) :
    (if t > s then s else t) = min s t := by
  by_cases h : t > s
  · rw [if_pos h, min_eq_left (by omega)]
  · rw [if_neg h, min_eq_right (by omega)]

/-! ## Concrete states used by the claim checks -/

def emptyRow8 : List (Option Nat) := List.replicate 8 none

def emptyGrid8 : List (List (Option Nat)) := List.replicate 8 emptyRow8

def mkPlayer : PlayerSt := { score := 0, strength := 1, turn := 0, consecutive_hits := 0 }

/-- Two adjacent aliens on a 2 × 2 board; alien 0 at (1,0), alien 1 at (1,1). -/
def gTravelA : GameSt :=
  { board := { grid := [[none, none], [some 0, some 1]], height := 2, width := 2 },
    aliens := [{ coords := (1, 0), x := 1, y := 0, strength := 4, squished := false, children := [] },
               { coords := (1, 1), x := 1, y := 1, strength := 7, squished := false, children := [] }],
    player := mkPlayer }

/-- Two adjacent aliens on a 2 × 2 board; alien 0 at (0,0), alien 1 at (0,1). -/
def gTravelB : GameSt :=
  { board := { grid := [[some 0, some 1], [none, none]], height := 2, width := 2 },
    aliens := [{ coords := (0, 0), x := 0, y := 0, strength := 3, squished := false, children := [] },
               { coords := (0, 1), x := 0, y := 1, strength := 5, squished := false, children := [] }],
    player := mkPlayer }

/-- C1: the claim says a travel whose in-bounds destination is occupied
leaves the entity's stored position (coords and x, y) and the grid
unchanged. The code violates it: `doTravel` assigns `self.coords = (newx,
newy)` even when `moveAlien` refused the move, so after drawing offsets
(0, 1) from (1,0) towards the occupied (1,1), the grid and `x`,`y` are
unchanged but `coords` now names the blocked destination. -/
theorem c1_travel_blocked_updates_coords :
    (doTravel gTravelA 0 0 1).board = gTravelA.board ∧
    alien? (doTravel gTravelA 0 0 1) 0 =
      some { coords := (1, 1), x := 1, y := 0, strength := 4, squished := false,
             children := [] } := by
  constructor
  · rfl
  · rfl

/-- C2: the claim says that after every core operation each live entity's
cell's grid slot points back to that entity. After the movement operation
`doTravel` with a blocked in-bounds destination, live alien 0 stores
coords (0,1) while the grid slot at (0,1) holds alien 1, so the invariant
fails on the code. -/
theorem c2_backpointer_broken_after_travel :
    (alien? (doTravel gTravelB 0 0 1) 0).map AlienSt.squished = some false ∧
    (alien? (doTravel gTravelB 0 0 1) 0).map AlienSt.coords = some (0, 1) ∧
    getAlienD (doTravel gTravelB 0 0 1).board (0, 1) = some 1 ∧ (1 : Nat) ≠ 0 := by
  refine ⟨rfl, rfl, rfl, by decide⟩

/-- One strength-2 alien alone on a 1 × 1 board. -/
def gPopNeg : GameSt :=
  { board := { grid := [[some 0]], height := 1, width := 1 },
    aliens := [{ coords := (0, 0), x := 0, y := 0, strength := 2, squished := false, children := [] }],
    player := mkPlayer }

/-- C3 counterexample: attacking the strength-2 alien with strength 3 stores
strength -1 on the entity — the claim "strength is never observed negative"
fails on the code, which subtracts the full attack strength. -/
theorem c3_counterexample_negative_strength :
    (squish gPopNeg (0, 0) 3).2 = 2 ∧
    (alien? (squish gPopNeg (0, 0) 3).1 0).map AlienSt.strength = some (-1) ∧
    ((-1 : Int) < 0) := by
  refine ⟨rfl, rfl, by decide⟩

/-- C3 amended: when a pop drops the strength below 1 the dead flag is set
and the board cell at the entity's stored coords is cleared, so an entity
whose stored coords are its only cell occupies no cell afterwards; the
stored strength is the full difference and may be negative. -/
theorem c3_dead_flag_set_and_cell_cleared {g : GameSt} {id : Nat} {a : AlienSt}
    {s : Int} (ha : alien? g id = some a) (hs : Shape8 g.board)
    (hc : Canon8 a.coords) (hlow : a.strength - s < 1)
    (huniq : ∀ i : Nat, i < 8 → ∀ j : Nat, j < 8 →
      getAlienD g.board ((i : Int), (j : Int)) = some id →
      ((i : Int), (j : Int)) = a.coords) :
    ∃ a', alien? (doPop g id s) id = some a' ∧ a'.squished = true ∧
      a'.strength = a.strength - s ∧
      ∀ i : Nat, i < 8 → ∀ j : Nat, j < 8 →
        getAlienD (doPop g id s).board ((i : Int), (j : Int)) ≠ some id := by
  rw [doPop_eq_dead ha hlow]
  refine ⟨_, List.getElem?_set_eq_of_lt _ (alien?_lt ha), rfl, rfl, ?_⟩
  intro i hi j hj
  show getAlienD (clearCell g.board a.coords) ((i : Int), (j : Int)) ≠ some id
  rw [clearCell_eq_setCell]
  by_cases hcell : ((i : Int), (j : Int)) = a.coords
  · rw [hcell, getAlienD_setCell_self hs hc none]
    simp
  · rw [getAlienD_setCell_ne hs hc (canon8_pair hi hj) hcell none]
    intro hup
    exact hcell (huniq i hi j hj hup)

/-- One strength-1 alien at (2,3) on the driver's 8 × 8 board. -/
def gPopW : GameSt :=
  { board := { grid := emptyGrid8.set 2 (emptyRow8.set 3 (some 0)), height := 8, width := 8 },
    aliens := [{ coords := (2, 3), x := 2, y := 3, strength := 1, squished := false, children := [] }],
    player := mkPlayer }

theorem c3_dead_flag_set_and_cell_cleared_witness :
    ∃ a', alien? (doPop gPopW 0 1) 0 = some a' ∧ a'.squished = true ∧
      a'.strength = 0 ∧
      ∀ i : Nat, i < 8 → ∀ j : Nat, j < 8 →
        getAlienD (doPop gPopW 0 1).board ((i : Int), (j : Int)) ≠ some 0 :=
  @c3_dead_flag_set_and_cell_cleared gPopW 0
    ⟨(2, 3), 2, 3, 1, false, []⟩ 1 (by rfl) (by decide) (by decide) (by decide)
    (by decide)

/-- C5: an attack on an out-of-bounds coordinate or an empty cell returns
the failure score -1 and leaves the whole state (board, aliens, player)
untouched. -/
theorem c5_attack_invalid_is_noop (g : GameSt) (c : Int × Int) (s : Int)
    (h : inRange g.board c = false ∨ isEmpty g.board c = true) :
    squish g c s = (g, -1) := by
  unfold squish
  rcases h with h | h
  · simp [h]
  · cases hr : inRange g.board c with
    | false => simp [hr]
    | true => simp [hr, h]

/-- An empty 8 × 8 board with no aliens. -/
def gOob : GameSt :=
  { board := { grid := emptyGrid8, height := 8, width := 8 },
    aliens := [], player := mkPlayer }

theorem c5_attack_invalid_is_noop_witness :
    squish gOob (10, 10) 1 = (gOob, -1) ∧ squish gOob (3, 3) 1 = (gOob, -1) :=
  ⟨c5_attack_invalid_is_noop _ _ _ (Or.inl (by decide)),
   c5_attack_invalid_is_noop _ _ _ (Or.inr (by decide))⟩

/-- C10: `getAlien` with a negative first coordinate of magnitude at most
the grid size does not raise and is not out of range from its own point of
view: it returns the content of the wrapped cell at the opposite edge
(Python negative indexing), while `inRange` rejects the coordinate — so
callers must bounds-check before querying. -/
theorem c10_negative_lookup_wraps (b : BoardSt) (x j : Int)
    (row : List (Option Nat)) (hx0 : x < 0) (hxn : -(b.grid.length : Int) ≤ x)
    (hrow : b.grid[(x + (b.grid.length : Int)).toNat]? = some row)
    (hj0 : 0 ≤ j) (hjr : j < (row.length : Int)) :
    getAlien b (x, j) = getAlien b (x + (b.grid.length : Int), j) ∧
    (getAlien b (x, j)).isSome = true ∧ inRange b (x, j) = false := by
  have hn0 : 0 ≤ x + (b.grid.length : Int) := by omega
  have hnn : x + (b.grid.length : Int) < (b.grid.length : Int) := by omega
  have hpx : pyIdx b.grid.length x = some (x + (b.grid.length : Int)).toNat := by
    unfold pyIdx
    rw [if_neg (by omega), if_pos hn0]
  have hpx2 : pyIdx b.grid.length (x + (b.grid.length : Int)) =
      some (x + (b.grid.length : Int)).toNat := pyIdx_canon hn0 hnn
  have hgx : pyGet b.grid x = some row := by
    unfold pyGet
    rw [hpx, Option.some_bind]
    exact hrow
  have hgx2 : pyGet b.grid (x + (b.grid.length : Int)) = some row := by
    unfold pyGet
    rw [hpx2, Option.some_bind]
    exact hrow
  have hjlt : j.toNat < row.length := by omega
  refine ⟨?_, ?_, ?_⟩
  · simp only [getAlien]
    rw [hgx, hgx2]
  · simp only [getAlien]
    rw [hgx, Option.some_bind, pyGet_canon hj0 hjr, List.getElem?_eq_getElem hjlt]
    rfl
  · unfold inRange
    have h1 : decide (0 ≤ (x, j).1) = false := decide_eq_false (by omega)
    rw [h1]
    simp

/-- A 3 × 3 board whose only occupant sits at the last row, first column. -/
def gWrapBoard : BoardSt :=
  { grid := [[none, none, none], [none, none, none], [some 7, none, none]],
    height := 3, width := 3 }

theorem c10_negative_lookup_wraps_witness :
    getAlien gWrapBoard (-1, 0) = getAlien gWrapBoard (-1 + (gWrapBoard.grid.length : Int), 0) ∧
    (getAlien gWrapBoard (-1, 0)).isSome = true ∧
    inRange gWrapBoard (-1, 0) = false :=
  c10_negative_lookup_wraps gWrapBoard (-1) 0 [some 7, none, none] (by decide)
    (by decide) (by rfl) (by decide) (by decide)

/-- Live root 0 with live child 1 that has a squished grandchild 2; the
board is irrelevant to the collector. -/
def gGcA : GameSt :=
  { board := { grid := [], height := 0, width := 0 },
    aliens := [{ coords := (0, 0), x := 0, y := 0, strength := 1, squished := false, children := [some 1] },
               { coords := (0, 0), x := 0, y := 0, strength := 1, squished := false, children := [some 2] },
               { coords := (0, 0), x := 0, y := 0, strength := 0, squished := true, children := [] }],
    player := mkPlayer }

/-- C7 counterexample: collecting `gGcA` nulls the dead grandchild's slot in
the visited live node 1, but only the root's list is compacted — node 1 is
left with the child list `[none]`, refuting "every visited live node's
child list contains no null slots". -/
theorem c7_counterexample_inner_null_slot :
    (garbage_collect gGcA [0] 20).map
      (fun p => (p.2, (p.1.aliens[0]?).map AlienSt.children,
        (p.1.aliens[1]?).map AlienSt.children)) =
      some ([0], some [some 1], some [none]) := by
  rfl

/-- C7 amended: after a (single-root) collection the ROOT's child list is
compacted — no null slots, survivors in original relative order — while
deeper visited live nodes only get dead slots nulled, not removed. -/
theorem c7_rootCompaction {g g' : GameSt} {r fuel : Nat} {a : AlienSt}
    {out : List Nat} (h : garbage_collect g [r] fuel = some (g', out))
    (ha : alien? g r = some a) (hsq : a.squished = false) :
    ∃ a', alien? g' r = some a' ∧
      (∀ slot ∈ a'.children, slot.isSome = true) ∧
      a'.children.Sublist a.children := by
  unfold garbage_collect at h
  cases hv : gc_roots fuel [r] g with
  | none =>
    rw [hv] at h
    exact absurd h (by simp)
  | some g1 =>
    rw [hv] at h
    simp only [Option.map_some'] at h
    have h2 := Option.some_inj.mp h
    have hg1 : g' = g1 := ((Prod.ext_iff.mp h2).1).symm
    have hroot : gc_root g r fuel = some g1 := by
      rw [show gc_roots fuel [r] g = (gc_root g r fuel).bind (gc_roots fuel [])
        from rfl] at hv
      cases hx : gc_root g r fuel with
      | none =>
        rw [hx] at hv
        exact absurd hv (by simp)
      | some gg =>
        rw [hx, Option.some_bind] at hv
        rw [Option.some_inj.mp hv]
    obtain ⟨a', ha', -, hall, hsub⟩ := gcRootChildren hroot ha hsq
    rw [hg1]
    exact ⟨a', ha', hall, hsub⟩

def c7pair : GameSt × List Nat := (garbage_collect gGcA [0] 20).getD (gGcA, [])

theorem c7_rootCompaction_witness :
    ∃ a', alien? c7pair.1 0 = some a' ∧
      (∀ slot ∈ a'.children, slot.isSome = true) ∧
      a'.children.Sublist [some 1] :=
  @c7_rootCompaction gGcA c7pair.1 0 20
    ⟨(0, 0), 0, 0, 1, false, [some 1]⟩ c7pair.2 (by rfl) (by rfl) (by rfl)

/-- Registry [0, 3]: live root 0 whose children are a dead leaf 1 and a dead
intermediate 2 holding a live grandchild 4; dead root 3 holding a live
child 5. -/
def gGcB : GameSt :=
  { board := { grid := [], height := 0, width := 0 },
    aliens := [{ coords := (0, 0), x := 0, y := 0, strength := 1, squished := false, children := [some 1, some 2] },
               { coords := (0, 0), x := 0, y := 0, strength := 0, squished := true, children := [] },
               { coords := (0, 0), x := 0, y := 0, strength := 0, squished := true, children := [some 4] },
               { coords := (0, 0), x := 0, y := 0, strength := 0, squished := true, children := [some 5] },
               { coords := (0, 0), x := 0, y := 0, strength := 1, squished := false, children := [] },
               { coords := (0, 0), x := 0, y := 0, strength := 1, squished := false, children := [] }],
    player := mkPlayer }

/-- C8: `garbage_collect` returns exactly the non-squished roots of the
registry (general, first conjunct); concretely on `gGcB`, the dead root 3
is dropped entirely (its live child 5 lost), the live root's child list
loses the dead leaf 1 and the dead intermediate 2, and the live grandchild
4 — reachable only through 2 — is still alive but hangs off no returned
root: it is not preserved by the collection. -/
theorem c8_gc_returns_live_roots (g : GameSt) (roots : List Nat) (fuel : Nat)
    (g' : GameSt) (out : List Nat)
    (h : garbage_collect g roots fuel = some (g', out)) :
    out = roots.filter (fun r =>
      match alien? g r with
      | some a => !a.squished
      | none => false) ∧
    (garbage_collect gGcB [0, 3] 30).map
      (fun p => (p.2, (p.1.aliens[0]?).map AlienSt.children,
        (p.1.aliens[4]?).map AlienSt.squished)) =
      some ([0], some [], some false) := by
  constructor
  · unfold garbage_collect at h
    cases hv : gc_roots fuel roots g with
    | none =>
      rw [hv] at h
      exact absurd h (by simp)
    | some g1 =>
      rw [hv] at h
      simp only [Option.map_some'] at h
      have h2 := Option.some_inj.mp h
      rw [Prod.mk.injEq] at h2
      rw [← h2.2]
      apply List.filter_congr
      intro r hr
      have hsp := gc_roots_spres roots fuel g g1 hv
      cases hra : alien? g r with
      | none =>
        have hn1 := SPres_none hsp hra
        simp only [hra, hn1]
      | some a =>
        obtain ⟨a1, ha1, hsq⟩ := hsp.2 r a hra
        simp only [ha1, hra, hsq]
        cases a.squished with
        | true => rfl
        | false => simp
  · rfl

def c8pair : GameSt × List Nat := (garbage_collect gGcB [0, 3] 30).getD (gGcB, [])

theorem c8_gc_returns_live_roots_witness :
    c8pair.2 = [0, 3].filter (fun r =>
      match alien? gGcB r with
      | some a => !a.squished
      | none => false) ∧
    (garbage_collect gGcB [0, 3] 30).map
      (fun p => (p.2, (p.1.aliens[0]?).map AlienSt.children,
        (p.1.aliens[4]?).map AlienSt.squished)) =
      some ([0], some [], some false) :=
  c8_gc_returns_live_roots gGcB [0, 3] 30 c8pair.1 c8pair.2 (by rfl)

/-- One strength-9 alien at (4,4); the attacker has strength 10 on turn 6. -/
def gNukeW : GameSt :=
  { board := { grid := emptyGrid8.set 4 (emptyRow8.set 4 (some 0)), height := 8, width := 8 },
    aliens := [{ coords := (4, 4), x := 4, y := 4, strength := 9, squished := false, children := [] }],
    player := { score := 0, strength := 10, turn := 6, consecutive_hits := 0 } }

/-- C9: the driver evaluates the nuke only once the turn count exceeds 5;
when it does and the live strength sum is strictly below the attacker's
strength, the check reports a win and `nuke_board` kills every alien of a
synced board; with turn count at most 5 the check changes nothing. -/
theorem c9_nuke_spec (g : GameSt) (hs : Shape8 g.board) (ho : OccS g)
    (hl : LiveS g) (hturn : g.player.turn > 5)
    (hsum : total_alien_strength g < g.player.strength) :
    (nuke_check g).2 = true ∧
    (∀ id a, alien? g id = some a →
      ∃ a', alien? (nuke_check g).1 id = some a' ∧ a'.squished = true) ∧
    (∀ g2 : GameSt, g2.player.turn ≤ 5 → nuke_check g2 = (g2, false)) := by
  have hnc : nuke_check g = (nuke_board g, true) := by
    unfold nuke_check
    rw [if_pos hturn, if_pos hsum]
  refine ⟨by rw [hnc], ?_, ?_⟩
  · intro id a ha
    rw [hnc]
    show ∃ a', alien? (nuke_board g) id = some a' ∧ a'.squished = true
    have hwh : nuke_board g = killCells g (allCells 8 8) := by
      unfold nuke_board
      rw [hs.2.2.2, hs.2.2.1]
    rw [hwh]
    cases hsq : a.squished with
    | true =>
      obtain ⟨-, -, hrec⟩ := KPres_killCells (allCells 8 8) g
      obtain ⟨s', hs', hmono⟩ := hrec id a ha
      exact ⟨_, hs', hmono hsq⟩
    | false =>
      have hlok := hl id (alien?_lt ha)
      unfold liveOK at hlok
      simp only [ha, hsq, Bool.false_or, Bool.and_eq_true, decide_eq_true_eq] at hlok
      obtain ⟨hcanon, hcell⟩ := hlok
      exact killCells_kills (allCells 8 8) g hs ho
        (fun c hc => mem_allCells_iff.mp hc) id a ha hcell
        (mem_allCells_iff.mpr hcanon)
  · intro g2 h2
    unfold nuke_check
    rw [if_neg (by omega)]

theorem c9_nuke_spec_witness :
    (nuke_check gNukeW).2 = true ∧
    (∀ id a, alien? gNukeW id = some a →
      ∃ a', alien? (nuke_check gNukeW).1 id = some a' ∧ a'.squished = true) ∧
    (∀ g2 : GameSt, g2.player.turn ≤ 5 → nuke_check g2 = (g2, false)) :=
  c9_nuke_spec gNukeW (by decide) (by decide) (by decide) (by decide) (by decide)

/-- Two strength-9 aliens far apart on the driver's 8 × 8 board: alien 0 at
(0,0) and alien 1 at (5,5). -/
def gBomb : GameSt :=
  { board := { grid := (emptyGrid8.set 0 (emptyRow8.set 0 (some 0))).set 5
                 (emptyRow8.set 5 (some 1)),
               height := 8, width := 8 },
    aliens := [{ coords := (0, 0), x := 0, y := 0, strength := 9, squished := false, children := [] },
               { coords := (5, 5), x := 5, y := 5, strength := 9, squished := false, children := [] }],
    player := mkPlayer }

def c4hit1 : GameSt × Int := squish gBomb (0, 0) 1

def c4hit2 : GameSt × Int := squish c4hit1.1 (0, 0) 1

def c4hit3 : GameSt × Int := squish c4hit2.1 (0, 0) 1

def c4hit4 : GameSt × Int := squish c4hit3.1 (0, 0) 1

def c4hit5 : GameSt × Int := squish c4hit4.1 (0, 0) 1

def c4hit6 : GameSt × Int := squish c4hit5.1 (5, 5) 1

/-- C4 counterexample: six consecutive positive-damage attacks. The claim
says that after five of them the NEXT positive attack triggers the bomb and
leaves the counter at 0. In the code the 5th attack itself triggers the
bomb (alien 0 is dead right after it, counter already 0), and the 6th
positive attack leaves the counter at 1 with no bomb — the epicenter
occupant, alien 1, survives. -/
theorem c4_counterexample_sixth_hit_no_bomb :
    c4hit1.2 = 1 ∧ c4hit2.2 = 1 ∧ c4hit3.2 = 1 ∧ c4hit4.2 = 1 ∧ c4hit5.2 = 1 ∧
    c4hit5.1.player.consecutive_hits = 0 ∧
    (alien? c4hit5.1 0).map AlienSt.squished = some true ∧
    c4hit6.2 = 1 ∧
    c4hit6.1.player.consecutive_hits = 1 ∧
    (alien? c4hit6.1 1).map AlienSt.squished = some false := by
  exact ⟨rfl, rfl, rfl, rfl, rfl, rfl, rfl, rfl, rfl, rfl⟩

/-- C4 amended: the hit-counter dynamics the code actually implements. A
positive-damage attack increments the counter; when the incremented counter
reaches 5 — i.e. on the 5th consecutive positive attack, not the 6th — the
area effect fires at the target (every occupant of the clipped 3 × 3 block
of the post-pop board dies) and the counter resets to 0; any attack on an
occupied cell that scores zero or negative resets the counter to 0. -/
theorem c4_hit_counter_dynamics (g : GameSt) (c : Int × Int) (s : Int) (id : Nat)
    (a : AlienSt) (hb : inRange g.board c = true)
    (hocc : getAlienD g.board c = some id) (ha : alien? g id = some a) :
    ((if a.strength > s then s else a.strength) > 0 →
      g.player.consecutive_hits + 1 < 5 →
      (squish g c s).1.player.consecutive_hits = g.player.consecutive_hits + 1 ∧
      (squish g c s).2 = (if a.strength > s then s else a.strength)) ∧
    ((if a.strength > s then s else a.strength) ≤ 0 →
      (squish g c s).1.player.consecutive_hits = 0 ∧
      (squish g c s).2 = (if a.strength > s then s else a.strength)) ∧
    ((if a.strength > s then s else a.strength) > 0 →
      g.player.consecutive_hits + 1 ≥ 5 →
      Shape8 g.board → OccS g → a.coords = c →
      (squish g c s).1.player.consecutive_hits = 0 ∧
      (squish g c s).2 = (if a.strength > s then s else a.strength) ∧
      ∀ c' ∈ affected_cells c, ∀ j,
        getAlienD (doPop g id s).board c' = some j →
        ∃ a', alien? (squish g c s).1 j = some a' ∧ a'.squished = true) := by
  rw [squish_occ hb hocc ha]
  simp only [doPop_player]
  refine ⟨?_, ?_, ?_⟩
  · intro hsc hlow
    rw [if_pos hsc, if_neg (by omega)]
    exact ⟨rfl, rfl⟩
  · intro hsc
    rw [if_neg (by omega)]
    exact ⟨rfl, rfl⟩
  · intro hsc hhigh hs8 ho hac
    rw [if_pos hsc, if_pos (by omega)]
    refine ⟨rfl, rfl, ?_⟩
    intro c' hc' j hj
    have hcanon : Canon8 c := inRange_canon hs8 hb
    have hsync := @sync_doPop g id a s hs8 ho ha (hac ▸ hcanon)
    have hcanc' : Canon8 c' := affected_cells_canon c c' hc'
    obtain ⟨aj, haj, hajc⟩ := OccS_spec hsync.2 hcanc' hj
    exact killCells_kills (affected_cells c)
      { board := (doPop g id s).board, aliens := (doPop g id s).aliens,
        player := { score := g.player.score, strength := g.player.strength,
                    turn := g.player.turn,
                    consecutive_hits := g.player.consecutive_hits + 1 } }
      hsync.1 hsync.2 (affected_cells_canon c) j aj haj (hajc ▸ hj) (hajc ▸ hc')

theorem c4_hit_counter_dynamics_witness :
    ((if (9 : Int) > 1 then (1 : Int) else 9) > 0 →
      gBomb.player.consecutive_hits + 1 < 5 →
      (squish gBomb (0, 0) 1).1.player.consecutive_hits =
        gBomb.player.consecutive_hits + 1 ∧
      (squish gBomb (0, 0) 1).2 = (if (9 : Int) > 1 then (1 : Int) else 9)) ∧
    ((if (9 : Int) > 1 then (1 : Int) else 9) ≤ 0 →
      (squish gBomb (0, 0) 1).1.player.consecutive_hits = 0 ∧
      (squish gBomb (0, 0) 1).2 = (if (9 : Int) > 1 then (1 : Int) else 9)) ∧
    ((if (9 : Int) > 1 then (1 : Int) else 9) > 0 →
      gBomb.player.consecutive_hits + 1 ≥ 5 →
      Shape8 gBomb.board → OccS gBomb → ((0 : Int), (0 : Int)) = ((0 : Int), (0 : Int)) →
      (squish gBomb (0, 0) 1).1.player.consecutive_hits = 0 ∧
      (squish gBomb (0, 0) 1).2 = (if (9 : Int) > 1 then (1 : Int) else 9) ∧
      ∀ c' ∈ affected_cells (0, 0), ∀ j,
        getAlienD (doPop gBomb 0 1).board c' = some j →
        ∃ a', alien? (squish gBomb (0, 0) 1).1 j = some a' ∧ a'.squished = true) :=
  c4_hit_counter_dynamics gBomb (0, 0) 1 0
    ⟨(0, 0), 0, 0, 9, false, []⟩ (by decide) (by rfl) (by rfl)

/-- C6 counterexample: the claim says the effective damage
min(attack, target) is applied to the target, so a strength-2 target
attacked with 3 would end at strength 2 - 2 = 0; the code applies the full
attack strength and stores -1. -/
def gHitNeg : GameSt :=
  { board := { grid := [[none, none], [none, some 0]], height := 2, width := 2 },
    aliens := [{ coords := (1, 1), x := 1, y := 1, strength := 2, squished := false, children := [] }],
    player := mkPlayer }

theorem c6_counterexample_full_damage_applied :
    (alien? (squish gHitNeg (1, 1) 3).1 0).map AlienSt.strength = some (-1) ∧
    ((2 : Int) - min 3 2 = 0) ∧ ((-1 : Int) ≠ 0) := by
  exact ⟨rfl, by decide, by decide⟩

/-- C6 amended: an attack on an in-bounds occupied cell returns the score
min(attack strength, target strength) but subtracts the FULL attack
strength from the target; when the result drops below 1 the target dies and
its cell becomes empty (covering the concrete scenario: a strength-2 target
attacked with 3 yields score 2, dies, and leaves its cell empty). -/
theorem c6_attack_occupied_spec (g : GameSt) (c : Int × Int) (s : Int) (id : Nat)
    (a : AlienSt) (hb : inRange g.board c = true)
    (hocc : getAlienD g.board c = some id) (ha : alien? g id = some a)
    (hac : a.coords = c) (hs8 : Shape8 g.board) :
    (squish g c s).2 = min s a.strength ∧
    ∃ a', alien? (squish g c s).1 id = some a' ∧ a'.strength = a.strength - s ∧
      (a.strength - s < 1 → a'.squished = true ∧
        getAlienD (squish g c s).1.board c = none) := by
  have hcanon : Canon8 c := inRange_canon hs8 hb
  rw [squish_occ hb hocc ha]
  simp only [doPop_player]
  have hmin : (if a.strength > s then s else a.strength) = min s a.strength :=
    score_eq_min a.strength s
  by_cases hd : a.strength - s < 1
  · -- the pop kills the target and clears its cell
    have hpop := doPop_eq_dead ha hd
    have hrec : alien? (doPop g id s) id =
        some ⟨a.coords, a.x, a.y, a.strength - s, true, a.children⟩ := by
      rw [hpop]
      exact List.getElem?_set_eq_of_lt _ (alien?_lt ha)
    have hcell : getAlienD (doPop g id s).board c = none := by
      rw [hpop]
      show getAlienD (clearCell g.board a.coords) c = none
      rw [clearCell_eq_setCell, hac]
      exact getAlienD_setCell_self hs8 hcanon none
    by_cases hsc : (if a.strength > s then s else a.strength) > 0
    · by_cases hh : g.player.consecutive_hits + 1 ≥ 5
      · rw [if_pos hsc, if_pos hh]
        obtain ⟨s', hs', hmono⟩ :=
          (KPres_killCells (affected_cells c)
            { board := (doPop g id s).board, aliens := (doPop g id s).aliens,
              player := { score := g.player.score, strength := g.player.strength,
                          turn := g.player.turn,
                          consecutive_hits := g.player.consecutive_hits + 1 } }).2.2
            id _ hrec
        refine ⟨hmin, _, hs', rfl, fun _ => ⟨hmono rfl, ?_⟩⟩
        exact getAlienD_killCells_none (affected_cells c)
          { board := (doPop g id s).board, aliens := (doPop g id s).aliens,
            player := { score := g.player.score, strength := g.player.strength,
                        turn := g.player.turn,
                        consecutive_hits := g.player.consecutive_hits + 1 } }
          c hcell
      · rw [if_pos hsc, if_neg hh]
        exact ⟨hmin, _, hrec, rfl, fun _ => ⟨rfl, hcell⟩⟩
    · rw [if_neg hsc]
      exact ⟨hmin, _, hrec, rfl, fun _ => ⟨rfl, hcell⟩⟩
  · -- the target survives the pop
    have hpop := doPop_eq_live ha hd
    have hrec : alien? (doPop g id s) id =
        some ⟨a.coords, a.x, a.y, a.strength - s, a.squished, a.children⟩ := by
      rw [hpop]
      exact alien?_setAlien_self _ (alien?_lt ha)
    by_cases hsc : (if a.strength > s then s else a.strength) > 0
    · by_cases hh : g.player.consecutive_hits + 1 ≥ 5
      · rw [if_pos hsc, if_pos hh]
        obtain ⟨s', hs', -⟩ :=
          (KPres_killCells (affected_cells c)
            { board := (doPop g id s).board, aliens := (doPop g id s).aliens,
              player := { score := g.player.score, strength := g.player.strength,
                          turn := g.player.turn,
                          consecutive_hits := g.player.consecutive_hits + 1 } }).2.2
            id _ hrec
        exact ⟨hmin, _, hs', rfl, fun hh' => absurd hh' hd⟩
      · rw [if_pos hsc, if_neg hh]
        exact ⟨hmin, _, hrec, rfl, fun hh' => absurd hh' hd⟩
    · rw [if_neg hsc]
      exact ⟨hmin, _, hrec, rfl, fun hh' => absurd hh' hd⟩

theorem c6_attack_occupied_spec_witness :
    (squish gPopW (2, 3) 1).2 = min 1 1 ∧
    ∃ a', alien? (squish gPopW (2, 3) 1).1 0 = some a' ∧
      a'.strength = (1 : Int) - 1 ∧
      ((1 : Int) - 1 < 1 → a'.squished = true ∧
        getAlienD (squish gPopW (2, 3) 1).1.board (2, 3) = none) :=
  c6_attack_occupied_spec gPopW (2, 3) 1 0
    ⟨(2, 3), 2, 3, 1, false, []⟩ (by decide) (by rfl) (by rfl) (by rfl) (by decide)

end Game2
